import Mathlib

/-!
Shallow embedding of the bybitHistoryViewer analysis core (src/app.py) and
verification of its natural-language specification.

Conventions of the embedding:
* All Decimal arithmetic of the source is modelled as exact rationals (`ℚ`).
* Timestamps are modelled as rationals (seconds); `timedelta.total_seconds()`
  is plain subtraction of the two rational timestamps.
* pandas dataframes are lists of records; column filters are list filters.
* `pd.sort_values` is modelled as a stable insertion sort on the time key
  (the source's quicksort leaves the order of time-ties unspecified; no
  verified statement depends on tie order).
* The NA-coercion steps of the source (`pd.to_numeric(...).fillna(Decimal(0))`,
  `dropna`) map missing numeric cells to 0 before the engines run; the
  embedding takes already-coerced typed rows, which no verified statement
  distinguishes from raw rows.
* Korean display labels are modelled by the inductive type `TradeType`:
  `TradeType.swing` is the long-term label and `TradeType.day` the
  short-term label produced at line 315 of src/app.py.
* Display-only output (timestamp strings, chart labels, "T-1" style ids,
  float casts for JSON) is not modelled; all quantities stay rational.
-/

attribute [local semireducible] Rat.add Rat.sub Rat.mul Rat.inv

/-- Filter a list by a decidable proposition, mirroring a dataframe row
filter such as `df[df.Type == 'TRADE']`. -/
def filterP {α : Type} (p : α → Prop) [DecidablePred p] (l : List α) : List α :=
  l.filter (fun a => decide (p a))

/-- First-occurrence deduplication, mirroring the key set of a pandas
groupby / `list(set(...))` where only the length or the unique member
matters. -/
def dedupFirst {α : Type} [DecidableEq α] (l : List α) : List α :=
  l.foldl (fun acc x => if x ∈ acc then acc else acc ++ [x]) []

/-- Exhaustion epsilon `Decimal('1e-9')` (lines 141 and 274 of src/app.py). -/
def eps : ℚ := 1 / 1000000000

/-! ### Spot matching engine (`analyze_spot_trades`, lines 71-186) -/

/-- One normalized spot ledger row: `Time(UTC)`, `Coin`, `Type`, `Amount`. -/
structure SRow where
  time : ℚ
  coin : String
  typ : String
  amount : ℚ
deriving DecidableEq, Repr

/-- A spot FIFO lot pushed by a buy leg (line 114): `{'qty', 'price', 'time'}`. -/
structure SpotLot where
  qty : ℚ
  price : ℚ
  time : ℚ
deriving DecidableEq, Repr

/-- A realized-PnL record appended at line 128. -/
structure SpotFill where
  coin : String
  pnl : ℚ
  quantity : ℚ
  buyPrice : ℚ
  sellPrice : ℚ
  buyTime : ℚ
  sellTime : ℚ
deriving DecidableEq, Repr

/-- Stable insertion of a spot row into a time-sorted list. -/
def insertByTimeS (r : SRow) : List SRow → List SRow
  | [] => [r]
  | x :: xs => if x.time ≤ r.time then x :: insertByTimeS r xs else r :: x :: xs

/-- Stable sort of spot rows by time (`df.sort_values(by='Time(UTC)')`). -/
def sortByTimeS (l : List SRow) : List SRow := l.foldr insertByTimeS []

/-- The TRADE rows, time-sorted (lines 73-80): `df[df['Type'] == 'trade']`. -/
def spotTradeRows (rows : List SRow) : List SRow :=
  filterP (fun r => r.typ = "trade") (sortByTimeS rows)

/-- The merged buy/sell legs processed by the matching loop (lines 84-95):
buys keep their amount, sells are replaced by their absolute value, then the
concatenation is re-sorted by time. -/
def spotAllTrades (rows : List SRow) : List SRow :=
  let trades := spotTradeRows rows
  let buys := filterP (fun r => 0 < r.amount) trades
  let sells := (filterP (fun r => r.amount < 0) trades).map
    (fun r => { r with amount := |r.amount| })
  sortByTimeS (buys ++ sells)

/-- Quote-leg lookup (lines 110 and 116): the first TRADE row at the same
timestamp whose coin is `USDT`. -/
def usdtRowAt (trades : List SRow) (t : ℚ) : Option SRow :=
  (filterP (fun r => r.time = t ∧ r.coin = "USDT") trades).head?

/-- The engine state: per-coin FIFO queues plus the realized fills so far.
`inv c` defaults to the empty queue (line 102's lazily-created deque). -/
structure SpotState where
  inv : String → List SpotLot
  fills : List SpotFill

/-- The sell-side FIFO loop (lines 121-142), fuel-indexed so that it is
structural: take `min` of the remaining sell quantity and the head lot,
emit a fill, decrement, and pop the lot once its remainder is `≤ eps`.
A fuel of `queue length + 1` always suffices (a lot that survives its match
forces the remaining sell quantity to zero). -/
def spotSellLoop (coin : String) (sellPrice sellTime : ℚ) :
    ℕ → ℚ → List SpotLot → List SpotFill × List SpotLot
  | 0, _, q => ([], q)
  | _ + 1, _, [] => ([], [])
  | fuel + 1, qts, lot :: rest =>
    if 0 < qts then
      let matched := min qts lot.qty
      let f : SpotFill :=
        { coin := coin, pnl := (sellPrice - lot.price) * matched,
          quantity := matched, buyPrice := lot.price, sellPrice := sellPrice,
          buyTime := lot.time, sellTime := sellTime }
      let lotQ := lot.qty - matched
      if lotQ ≤ eps then
        let r := spotSellLoop coin sellPrice sellTime fuel (qts - matched) rest
        (f :: r.1, r.2)
      else
        let r := spotSellLoop coin sellPrice sellTime fuel (qts - matched)
          ({ lot with qty := lotQ } :: rest)
        (f :: r.1, r.2)
    else ([], lot :: rest)

/-- One iteration of the main loop over merged legs (lines 97-142).
Note line 106: `is_buy = row['Amount'] > 0` is evaluated on the row taken
from the merged list, in which sell amounts have already been replaced by
their absolute values. -/
def spotStep (trades : List SRow) (st : SpotState) (row : SRow) : SpotState :=
  if 0 < row.amount then
    match usdtRowAt trades row.time with
    | none => st
    | some u =>
      let price := |u.amount| / row.amount
      { st with inv := fun c =>
          if c = row.coin then
            st.inv row.coin ++ [{ qty := row.amount, price := price, time := row.time }]
          else st.inv c }
  else
    match usdtRowAt trades row.time with
    | none => st
    | some u =>
      let sellPrice := u.amount / row.amount
      let r := spotSellLoop row.coin sellPrice row.time
        ((st.inv row.coin).length + 1) row.amount (st.inv row.coin)
      { inv := fun c => if c = row.coin then r.2 else st.inv c,
        fills := st.fills ++ r.1 }

/-- Run the whole spot matching loop. -/
def spotRun (rows : List SRow) : SpotState :=
  (spotAllTrades rows).foldl (spotStep (spotTradeRows rows))
    { inv := fun _ => [], fills := [] }

/-- The realized-PnL fills of the spot engine. -/
def spotFills (rows : List SRow) : List SpotFill := (spotRun rows).fills

/-- Total trading fees (line 89): per-coin sums of `tradingFee` amounts,
absolute value per coin, summed over coins (line 149). -/
def spotFeeTotal (rows : List SRow) : ℚ :=
  let fees := filterP (fun r => r.typ = "tradingFee") (sortByTimeS rows)
  let coins := dedupFirst (fees.map (·.coin))
  (coins.map (fun c => |((filterP (fun r => r.coin = c) fees).map (·.amount)).sum|)).sum

/-- The structured failures of the analysis pipeline (section 7 of the spec).
`noValidData` is line 380, `mixedFiles` line 383 (`MixedInstrumentTypes`),
`cannotDetermine` line 393, `noRealizedPnl` line 145, `noContractData`
line 193, `noClassifiableTrades` line 278. -/
inductive AnalysisError
  | noValidData
  | mixedFiles
  | cannotDetermine
  | noRealizedPnl
  | noContractData
  | noClassifiableTrades
deriving DecidableEq, Repr

/-- Successful spot payload (lines 160-182); display formatting dropped. -/
structure SpotResult where
  totalPnl : ℚ
  tradeCount : ℕ
  totalFees : ℚ
  trades : List SpotFill
deriving DecidableEq, Repr

/-- `analyze_spot_trades` (lines 71-186). -/
def analyze_spot_trades (rows : List SRow) : Except AnalysisError SpotResult :=
  let fills := spotFills rows
  if fills.isEmpty then .error .noRealizedPnl
  else
    let totalFees := spotFeeTotal rows
    .ok { totalPnl := (fills.map (·.pnl)).sum - totalFees,
          tradeCount := fills.length,
          totalFees := totalFees,
          trades := fills }

/-! ### Contract matching engine (`analyze_contract_trades`, lines 188-358) -/

/-- One normalized contract ledger row after numeric coercion (lines 199-205):
`Time(UTC)`, `Contract`, `Type`, `Action`, `Quantity`, `Filled Price`,
`Fee Paid`, `Cash Flow`, `Funding`, `Change`. Rows with an unrecognized
direction carry the empty string as `action` (the `None` of line 26).
An open position (line 226's `row.to_dict()`) is a `CRow` whose `quantity`
is decremented in place as it is consumed. -/
structure CRow where
  time : ℚ
  contract : String
  typ : String
  action : String
  quantity : ℚ
  filledPrice : ℚ
  feePaid : ℚ
  cashFlow : ℚ
  funding : ℚ
  change : ℚ
deriving DecidableEq, Repr

/-- A classified-trade record appended at line 260. -/
structure Fill where
  contract : String
  pnl : ℚ
  holdingPeriodSeconds : ℚ
  openTime : ℚ
  closeTime : ℚ
  fundingFee : ℚ
  tradeFees : ℚ
  quantity : ℚ
deriving DecidableEq, Repr

/-- Stable insertion of a contract row into a time-sorted list. -/
def insertByTimeC (r : CRow) : List CRow → List CRow
  | [] => [r]
  | x :: xs => if x.time ≤ r.time then x :: insertByTimeC r xs else r :: x :: xs

/-- Stable sort of contract rows by time (line 222). -/
def sortByTimeC (l : List CRow) : List CRow := l.foldr insertByTimeC []

/-- Stable insertion of a string into a lexicographically sorted list (the
character-list order coincides with the string order and evaluates in the
kernel). -/
def insertStr (s : String) : List String → List String
  | [] => [s]
  | x :: xs => if x.data ≤ s.data then x :: insertStr s xs else s :: x :: xs

/-- Sorted contract keys, mirroring `groupby('Contract')`, whose groups are
enumerated in ascending key order. -/
def sortStr (l : List String) : List String := l.foldr insertStr []

/-- `pnl_ratio` (line 234): `matched_qty / row['Quantity']` guarded to 0 when
the close row's quantity is not positive. -/
def pnl_ratio (matched closeQty : ℚ) : ℚ :=
  if 0 < closeQty then matched / closeQty else 0

/-- `close_pnl_part` (line 235). -/
def close_pnl_part (cashFlow matched closeQty : ℚ) : ℚ :=
  cashFlow * pnl_ratio matched closeQty

/-- `close_fee_part` (line 236). -/
def close_fee_part (feePaid matched closeQty : ℚ) : ℚ :=
  feePaid * pnl_ratio matched closeQty

/-- `open_fee_ratio` (line 238): `matched_qty / open_pos['Quantity']` guarded
to 0 when the lot's (current) quantity is not positive. -/
def open_fee_ratio (matched lotQty : ℚ) : ℚ :=
  if 0 < lotQty then matched / lotQty else 0

/-- `open_fee_part` (line 239): the lot's stored fee times `open_fee_ratio`
against the lot's currently-remaining quantity. -/
def open_fee_part (lotFee matched lotQty : ℚ) : ℚ :=
  lotFee * open_fee_ratio matched lotQty

/-- `funding_sum` (lines 241-246): every SETTLEMENT row of the same contract
whose time lies in `(lot open time, close time]`, summed over the `Change`
column (line 211 overwrites `Funding` with `Change`, which always exists
after the coercion loop of lines 200-205). -/
def fundingSum (fundingRows : List CRow) (c : String) (openT closeT : ℚ) : ℚ :=
  ((filterP (fun r => r.contract = c ∧ openT < r.time ∧ r.time ≤ closeT) fundingRows).map
    (·.change)).sum

/-- `total_open_qty_in_period` (lines 248-252): the original quantities of the
group's OPEN rows whose time lies in `[lot open time, close time]`. -/
def totalOpenQtyInPeriod (group : List CRow) (openT closeT : ℚ) : ℚ :=
  ((filterP (fun r => r.action = "OPEN" ∧ openT ≤ r.time ∧ r.time ≤ closeT) group).map
    (·.quantity)).sum

/-- `funding_part` (line 254): the window's funding times the matched share of
the total opened quantity, 0 when that total is not positive. -/
def fundingPart (fundingRows group : List CRow) (c : String)
    (openT closeT matched : ℚ) : ℚ :=
  let fs := fundingSum fundingRows c openT closeT
  let toq := totalOpenQtyInPeriod group openT closeT
  if 0 < toq then fs * (matched / toq) else 0

/-- One match of a CLOSE row against the head lot (lines 232-269): the body of
the while loop that computes the proportional parts and emits a fill. `lot`
is the head open position as currently stored in the queue, so `lot.quantity`
is its live remaining quantity at the moment of this match. -/
def matchFill (fundingRows group : List CRow) (c : String)
    (closeRow lot : CRow) (qtc : ℚ) : Fill :=
  let matched := min qtc lot.quantity
  let cpp := close_pnl_part closeRow.cashFlow matched closeRow.quantity
  let cfp := close_fee_part closeRow.feePaid matched closeRow.quantity
  let ofp := open_fee_part lot.feePaid matched lot.quantity
  let fp := fundingPart fundingRows group c lot.time closeRow.time matched
  { contract := c,
    pnl := cpp + ofp + cfp + fp,
    holdingPeriodSeconds := closeRow.time - lot.time,
    openTime := lot.time,
    closeTime := closeRow.time,
    fundingFee := fp,
    tradeFees := ofp + cfp,
    quantity := matched }

/-- The CLOSE-side FIFO loop (lines 230-275), fuel-indexed so that it is
structural: while quantity remains and the queue is nonempty, match against
the head lot, decrement both sides, and pop the lot once its remainder is
`≤ eps`. A fuel of `queue length + 1` always suffices (a lot that survives
its match forces the remaining close quantity to zero). -/
def processCloseF (fundingRows group : List CRow) (c : String) (closeRow : CRow) :
    ℕ → ℚ → List CRow → List Fill × List CRow
  | 0, _, q => ([], q)
  | _ + 1, _, [] => ([], [])
  | fuel + 1, qtc, lot :: rest =>
    if 0 < qtc then
      let f := matchFill fundingRows group c closeRow lot qtc
      let matched := min qtc lot.quantity
      let lotQ := lot.quantity - matched
      if lotQ ≤ eps then
        let r := processCloseF fundingRows group c closeRow fuel (qtc - matched) rest
        (f :: r.1, r.2)
      else
        let r := processCloseF fundingRows group c closeRow fuel (qtc - matched)
          ({ lot with quantity := lotQ } :: rest)
        (f :: r.1, r.2)
    else ([], lot :: rest)

/-- One iteration of the per-group loop (lines 224-275): an OPEN row is
appended to the FIFO queue, a CLOSE row is matched through `processCloseF`. -/
def processRow (fundingRows group : List CRow) (c : String)
    (st : List CRow × List Fill) (row : CRow) : List CRow × List Fill :=
  if row.action = "OPEN" then (st.1 ++ [row], st.2)
  else if row.action = "CLOSE" then
    let r := processCloseF fundingRows group c row (st.1.length + 1) row.quantity st.1
    (r.2, st.2 ++ r.1)
  else st

/-- Process one contract group (lines 220-275): sort the group by time, then
fold the queue and fill accumulator over its rows. Returns the final queue
and the fills of the group. -/
def processGroupFull (fundingRows : List CRow) (c : String) (group : List CRow) :
    List CRow × List Fill :=
  let g := sortByTimeC group
  g.foldl (processRow fundingRows g c) ([], [])

/-- `trade_actions_df` (line 216): rows with a recognized OPEN/CLOSE action
and type TRADE. -/
def contractTradeActions (rows : List CRow) : List CRow :=
  filterP (fun r => (r.action = "OPEN" ∨ r.action = "CLOSE") ∧ r.typ = "TRADE") rows

/-- `funding_df` (line 209): the SETTLEMENT rows of the whole batch. -/
def contractFundingRows (rows : List CRow) : List CRow :=
  filterP (fun r => r.typ = "SETTLEMENT") rows

/-- The contract keys of the grouped trade actions, in ascending key order. -/
def contractKeys (rows : List CRow) : List String :=
  sortStr (dedupFirst ((contractTradeActions rows).map (·.contract)))

/-- `classified_trades` (lines 218-275): all fills of all contract groups. -/
def contractFills (rows : List CRow) : List Fill :=
  let ta := contractTradeActions rows
  let fr := contractFundingRows rows
  (contractKeys rows).foldl
    (fun acc c => acc ++ (processGroupFull fr c (filterP (fun r => r.contract = c) ta)).2) []

/-! ### Aggregator and classifier (lines 280-353) -/

/-- One aggregated close-time group before classification (lines 290-302). -/
structure AggRow where
  closeTime : ℚ
  pnl : ℚ
  tradeFees : ℚ
  fundingFee : ℚ
  quantity : ℚ
  openTime : ℚ
  holdingPeriodSeconds : ℚ
  contract : String
deriving DecidableEq, Repr

/-- Minimum of a list of rationals (`'open_time': 'min'` over a nonempty
group; 0 for the empty list, which aggregation never queries). -/
def listMinQ : List ℚ → ℚ
  | [] => 0
  | x :: xs => xs.foldl min x

/-- `weighted_avg` (lines 285-288): quantity-weighted average holding period,
0 when the total weight is 0. -/
def weightedAvg (fills : List Fill) : ℚ :=
  let w := (fills.map (·.quantity)).sum
  if w = 0 then 0
  else ((fills.map (fun f => f.holdingPeriodSeconds * f.quantity)).sum) / w

/-- The aggregate record of one close-time group (lines 290-301): sums of
pnl/fees/funding/quantity, minimum open time, first member's contract,
weighted holding period. -/
def aggRowAt (fills : List Fill) (t : ℚ) : AggRow :=
  let g := filterP (fun f => f.closeTime = t) fills
  { closeTime := t,
    pnl := (g.map (·.pnl)).sum,
    tradeFees := (g.map (·.tradeFees)).sum,
    fundingFee := (g.map (·.fundingFee)).sum,
    quantity := (g.map (·.quantity)).sum,
    openTime := listMinQ (g.map (·.openTime)),
    holdingPeriodSeconds := weightedAvg g,
    contract := ((g.head?).map (·.contract)).getD "" }

/-- Stable insertion of a rational into a sorted list. -/
def insertQ (a : ℚ) : List ℚ → List ℚ
  | [] => [a]
  | x :: xs => if x ≤ a then x :: insertQ a xs else a :: x :: xs

/-- Ascending sort of rationals. -/
def sortQ (l : List ℚ) : List ℚ := l.foldr insertQ []

/-- The distinct close timestamps in ascending order: the group keys of
`groupby('close_time')` (line 299), which the explicit sort of line 305
leaves unchanged. -/
def closeTimeKeys (fills : List Fill) : List ℚ :=
  sortQ (dedupFirst (fills.map (·.closeTime)))

/-- `agg_trades` (lines 299-305): one aggregate per distinct close time,
grouped purely by close timestamp. -/
def aggregateFills (fills : List Fill) : List AggRow :=
  (closeTimeKeys fills).map (aggRowAt fills)

/-- The day/swing classification labels of line 315 (Korean display strings
in the source). -/
inductive TradeType
  | day
  | swing
deriving DecidableEq, Repr

/-- Line 315: the long-term label exactly when the holding period strictly
exceeds the threshold in seconds. -/
def classifyType (thresholdSeconds hps : ℚ) : TradeType :=
  if thresholdSeconds < hps then .swing else .day

/-- A finished trade row (lines 309-315): aggregate fields plus running
totals and the classification label. -/
structure AggTrade where
  closeTime : ℚ
  pnl : ℚ
  tradeFees : ℚ
  fundingFee : ℚ
  quantity : ℚ
  openTime : ℚ
  holdingPeriodSeconds : ℚ
  contract : String
  cumulativePnl : ℚ
  cumulativeFees : ℚ
  typ : TradeType
deriving DecidableEq, Repr

/-- The enumeration loop of lines 307-315: prefix sums of pnl and fees plus
per-row classification. -/
def finalizeTrades (thresholdSeconds : ℚ) : ℚ → ℚ → List AggRow → List AggTrade
  | _, _, [] => []
  | cp, cf, r :: rs =>
    let cp2 := cp + r.pnl
    let cf2 := cf + r.tradeFees
    { closeTime := r.closeTime, pnl := r.pnl, tradeFees := r.tradeFees,
      fundingFee := r.fundingFee, quantity := r.quantity, openTime := r.openTime,
      holdingPeriodSeconds := r.holdingPeriodSeconds, contract := r.contract,
      cumulativePnl := cp2, cumulativeFees := cf2,
      typ := classifyType thresholdSeconds r.holdingPeriodSeconds }
      :: finalizeTrades thresholdSeconds cp2 cf2 rs

/-- The classified, aggregated trades of a contract batch:
`threshold_seconds = threshold_hours * 3600` (line 190). -/
def contractAggTrades (rows : List CRow) (thresholdHours : ℚ) : List AggTrade :=
  finalizeTrades (thresholdHours * 3600) 0 0 (aggregateFills (contractFills rows))

/-- Successful contract payload (lines 327-353); display formatting dropped. -/
structure ContractResult where
  totalPnl : ℚ
  dayTradePnl : ℚ
  swingTradePnl : ℚ
  tradeCount : ℕ
  trades : List AggTrade
deriving DecidableEq, Repr

/-- `analyze_contract_trades` (lines 188-358). -/
def analyze_contract_trades (rows : List CRow) (thresholdHours : ℚ) :
    Except AnalysisError ContractResult :=
  if rows.isEmpty then .error .noContractData
  else
    let fills := contractFills rows
    if fills.isEmpty then .error .noClassifiableTrades
    else
      let ts := contractAggTrades rows thresholdHours
      .ok { totalPnl := (ts.map (·.pnl)).sum,
            dayTradePnl := ((filterP (fun t => t.typ = .day) ts).map (·.pnl)).sum,
            swingTradePnl := ((filterP (fun t => t.typ = .swing) ts).map (·.pnl)).sum,
            tradeCount := ts.length,
            trades := ts }

/-! ### Upload pipeline (`load_and_process_files`, lines 41-69, and
`analyze_uploaded_files`, lines 364-397) -/

/-- A parsed row of an uploaded file, carrying both the spot view and the
contract view of its cells (unrelated columns are the NA-coerced defaults).
Legacy-schema adaptation (`transform_legacy_to_uta`, lines 20-39) is assumed
already applied, so `action` is the derived OPEN/CLOSE/empty marker. -/
structure URow where
  time : ℚ
  coin : String
  amount : ℚ
  contract : String
  typ : String
  action : String
  quantity : ℚ
  filledPrice : ℚ
  feePaid : ℚ
  cashFlow : ℚ
  funding : ℚ
  change : ℚ
deriving DecidableEq, Repr

/-- The spot view of an uploaded row. -/
def URow.toS (r : URow) : SRow :=
  { time := r.time, coin := r.coin, typ := r.typ, amount := r.amount }

/-- The contract view of an uploaded row. -/
def URow.toC (r : URow) : CRow :=
  { time := r.time, contract := r.contract, typ := r.typ, action := r.action,
    quantity := r.quantity, filledPrice := r.filledPrice, feePaid := r.feePaid,
    cashFlow := r.cashFlow, funding := r.funding, change := r.change }

/-- One uploaded CSV file: its header columns and its parsed data rows. -/
structure UFile where
  cols : List String
  rows : List URow
deriving DecidableEq, Repr

/-- The two instrument classifications of lines 51-58. -/
inductive FileTag
  | spot
  | contract
deriving DecidableEq, Repr

/-- File classification by column signature (lines 51-58): `Coin` and
`Amount` columns make a spot file; otherwise a `Contract` or `Direction`
column makes a contract file; otherwise the file is skipped. -/
def classifyFile (f : UFile) : Option FileTag :=
  if "Coin" ∈ f.cols ∧ "Amount" ∈ f.cols then some .spot
  else if "Contract" ∈ f.cols ∨ "Direction" ∈ f.cols then some .contract
  else none

/-- The distinct classification tags of a batch: `list(set(file_types))`
(line 69); only its length and, when single, its unique member are used. -/
def pipelineTags (files : List UFile) : List FileTag :=
  dedupFirst (files.filterMap classifyFile)

/-- The concatenated rows of the classified files (line 69's `pd.concat`
over `df_list`; unclassified files contribute nothing). -/
def pipelineRows (files : List UFile) : List URow :=
  (files.filter (fun f => (classifyFile f).isSome)).foldl (fun acc f => acc ++ f.rows) []

/-- The successful payload of the pipeline: one of the two engine results. -/
inductive AnalysisOk
  | spotR (r : SpotResult)
  | contractR (r : ContractResult)
deriving DecidableEq, Repr

/-- `analyze_uploaded_files` (lines 364-397) from the point where the batch
has been read: empty-data check (lines 379-380), mixed-batch check
(lines 382-383), then dispatch to the engine matching the single tag. -/
def analyzeUploadedFiles (files : List UFile) (thresholdHours : ℚ) :
    Except AnalysisError AnalysisOk :=
  let classified := files.filter (fun f => (classifyFile f).isSome)
  let rows := pipelineRows files
  let tags := pipelineTags files
  if classified.isEmpty then .error .noValidData
  else if rows.isEmpty then .error .noValidData
  else if 1 < tags.length then .error .mixedFiles
  else
    match tags with
    | [FileTag.contract] =>
      (analyze_contract_trades (rows.map URow.toC) thresholdHours).map AnalysisOk.contractR
    | [FileTag.spot] =>
      (analyze_spot_trades (rows.map URow.toS)).map AnalysisOk.spotR
    | _ => .error .cannotDetermine

/-! ### Concrete inputs used by the verification -/

/-- A contract row with every field zeroed (the NA-coerced default). -/
def baseC : CRow :=
  { time := 0, contract := "", typ := "", action := "", quantity := 0,
    filledPrice := 0, feePaid := 0, cashFlow := 0, funding := 0, change := 0 }

/-- A spot row with every field zeroed. -/
def baseS : SRow := { time := 0, coin := "", typ := "", amount := 0 }

/-- An uploaded row with every field zeroed. -/
def baseU : URow :=
  { time := 0, coin := "", amount := 0, contract := "", typ := "", action := "",
    quantity := 0, filledPrice := 0, feePaid := 0, cashFlow := 0, funding := 0,
    change := 0 }

/-- Two contracts, each opened once and closed at the same timestamp 2. -/
def c1rows : List CRow :=
  [ { baseC with time := 0, contract := "A", typ := "TRADE", action := "OPEN", quantity := 1 },
    { baseC with time := 2, contract := "A", typ := "TRADE", action := "CLOSE", quantity := 1, cashFlow := 7 },
    { baseC with time := 1, contract := "B", typ := "TRADE", action := "OPEN", quantity := 1 },
    { baseC with time := 2, contract := "B", typ := "TRADE", action := "CLOSE", quantity := 1, cashFlow := 5 } ]

/-- One lot of 10, half closed at time 10, a funding settlement of -4 at
time 15 (while 5 of the lot is still open), the rest closed at time 20. -/
def c2rows : List CRow :=
  [ { baseC with time := 0, contract := "X", typ := "TRADE", action := "OPEN", quantity := 10 },
    { baseC with time := 10, contract := "X", typ := "TRADE", action := "CLOSE", quantity := 5 },
    { baseC with time := 15, contract := "X", typ := "SETTLEMENT", change := -4 },
    { baseC with time := 20, contract := "X", typ := "TRADE", action := "CLOSE", quantity := 5 } ]

/-- A spot batch: buy 10 C for 20 USDT at time 0, sell 10 C for 30 USDT at
time 1 (each trade recorded as its coin leg plus its USDT leg). -/
def c3rows : List SRow :=
  [ { baseS with time := 0, coin := "USDT", typ := "trade", amount := -20 },
    { baseS with time := 0, coin := "C", typ := "trade", amount := 10 },
    { baseS with time := 1, coin := "USDT", typ := "trade", amount := 30 },
    { baseS with time := 1, coin := "C", typ := "trade", amount := -10 } ]

/-- A spot batch holding only a priced buy leg of 10 C at price 2. -/
def c6rows : List SRow :=
  [ { baseS with time := 0, coin := "USDT", typ := "trade", amount := -20 },
    { baseS with time := 0, coin := "C", typ := "trade", amount := 10 } ]

/-- One contract trade held exactly 24 hours (86400 seconds). -/
def c7rows : List CRow :=
  [ { baseC with time := 0, contract := "X", typ := "TRADE", action := "OPEN", quantity := 1 },
    { baseC with time := 86400, contract := "X", typ := "TRADE", action := "CLOSE", quantity := 1 } ]

/-- A contract batch with an OPEN row only, which yields no fills. -/
def c8row : CRow :=
  { baseC with contract := "X", typ := "TRADE", action := "OPEN", quantity := 1 }

/-- A spot-signature file and a contract-signature file, both without data
rows. -/
def c9f1 : UFile := { cols := ["Coin", "Amount"], rows := [] }

/-- See `c9f1`. -/
def c9f2 : UFile := { cols := ["Contract"], rows := [] }

/-- A spot-signature file with one data row. -/
def c9g1 : UFile := { cols := ["Coin", "Amount"], rows := [baseU] }

/-- A contract-signature file without data rows. -/
def c9g2 : UFile := { cols := ["Contract"], rows := [] }

/-- One lot of 10 with an opening fee of 2, consumed by two CLOSEs of 5. -/
def c10rows : List CRow :=
  [ { baseC with time := 0, contract := "X", typ := "TRADE", action := "OPEN", quantity := 10, feePaid := 2 },
    { baseC with time := 10, contract := "X", typ := "TRADE", action := "CLOSE", quantity := 5 },
    { baseC with time := 20, contract := "X", typ := "TRADE", action := "CLOSE", quantity := 5 } ]

/-- The aggregate of the filter-spelled spec formula for the open-fee
allocation, following the specified policy: the ratio of the matched
quantity to the lot's remaining quantity at this match, with ratio 0 when
that remaining quantity is 0. -/
def openFeePart_claim (lotFee matched lotRem : ℚ) : ℚ :=
  if lotRem = 0 then 0 else lotFee * (matched / lotRem)

/-- A lot with 5 remaining, used to instantiate queue statements. -/
def c5lot : CRow := { baseC with quantity := 5 }

/-- The single aggregated trade produced by `c7rows` at threshold 24. -/
def c7trade : AggTrade :=
  { closeTime := 86400, pnl := 0, tradeFees := 0, fundingFee := 0, quantity := 1,
    openTime := 0, holdingPeriodSeconds := 86400, contract := "X",
    cumulativePnl := 0, cumulativeFees := 0, typ := .day }

/-- The empty spot engine state. -/
def c6state : SpotState := { inv := fun _ => [], fills := [] }

/-- The coin leg of the trade in `c6rows`. -/
def c6row : SRow := { baseS with time := 0, coin := "C", typ := "trade", amount := 10 }

/-- The quote leg of the trade in `c6rows`. -/
def c6usdt : SRow := { baseS with time := 0, coin := "USDT", typ := "trade", amount := -20 }

/-- A fill used to instantiate aggregation statements. -/
def c1fill : Fill :=
  { contract := "A", pnl := 1, holdingPeriodSeconds := 3, openTime := 2,
    closeTime := 5, fundingFee := 0, tradeFees := 0, quantity := 2 }

/-- An OPEN row of contract `X` with quantity `q` and opening fee `fo`. -/
def c2open (X : String) (t0 q fo : ℚ) : CRow :=
  { baseC with
    time := t0, contract := X, typ := "TRADE", action := "OPEN",
    quantity := q, feePaid := fo }

/-- A SETTLEMENT row of contract `X` carrying funding `F` in `Change`. -/
def c2settle (X : String) (ts F : ℚ) : CRow :=
  { baseC with time := ts, contract := X, typ := "SETTLEMENT", change := F }

/-- A CLOSE row of contract `X` with quantity `q`, cash flow `cf` and
closing fee `fc`. -/
def c2close (X : String) (tc q cf fc : ℚ) : CRow :=
  { baseC with
    time := tc, contract := X, typ := "TRADE", action := "CLOSE",
    quantity := q, cashFlow := cf, feePaid := fc }

/-! ### Supporting lemmas -/

theorem filterP_nil {α : Type} (p : α → Prop) [DecidablePred p] :
    filterP p [] = [] := rfl

theorem filterP_cons {α : Type} (p : α → Prop) [DecidablePred p] (x : α) (l : List α) :
    filterP p (x :: l) = if p x then x :: filterP p l else filterP p l := by
  by_cases h : p x <;> simp [filterP, List.filter_cons, h]

theorem mem_filterP {α : Type} {p : α → Prop} [DecidablePred p] {x : α} {l : List α} :
    x ∈ filterP p l ↔ x ∈ l ∧ p x := by
  simp [filterP, List.mem_filter]

theorem mem_insertByTimeC {r x : CRow} {l : List CRow} :
    x ∈ insertByTimeC r l ↔ x = r ∨ x ∈ l := by
  induction l with
  | nil => simp [insertByTimeC]
  | cons y ys ih =>
    by_cases h : y.time ≤ r.time
    · simp only [insertByTimeC, if_pos h, List.mem_cons, ih]
      try tauto
    · simp only [insertByTimeC, if_neg h, List.mem_cons]
      try tauto

theorem mem_sortByTimeC {x : CRow} {l : List CRow} :
    x ∈ sortByTimeC l ↔ x ∈ l := by
  induction l with
  | nil => simp [sortByTimeC]
  | cons y ys ih =>
    simp only [sortByTimeC, List.foldr] at ih ⊢
    rw [mem_insertByTimeC, ih, List.mem_cons]

theorem mem_insertByTimeS {r x : SRow} {l : List SRow} :
    x ∈ insertByTimeS r l ↔ x = r ∨ x ∈ l := by
  induction l with
  | nil => simp [insertByTimeS]
  | cons y ys ih =>
    by_cases h : y.time ≤ r.time
    · simp only [insertByTimeS, if_pos h, List.mem_cons, ih]
      try tauto
    · simp only [insertByTimeS, if_neg h, List.mem_cons]
      try tauto

theorem mem_sortByTimeS {x : SRow} {l : List SRow} :
    x ∈ sortByTimeS l ↔ x ∈ l := by
  induction l with
  | nil => simp [sortByTimeS]
  | cons y ys ih =>
    simp only [sortByTimeS, List.foldr] at ih ⊢
    rw [mem_insertByTimeS, ih, List.mem_cons]

theorem length_insertQ (a : ℚ) (l : List ℚ) :
    (insertQ a l).length = l.length + 1 := by
  induction l with
  | nil => rfl
  | cons y ys ih =>
    by_cases h : y ≤ a <;> simp [insertQ, *]

theorem length_sortQ (l : List ℚ) : (sortQ l).length = l.length := by
  induction l with
  | nil => rfl
  | cons y ys ih => simp [sortQ, List.foldr, length_insertQ] at ih ⊢; omega

theorem processCloseF_queue_sub {fr grp : List CRow} {c : String} {cr : CRow} :
    ∀ (fuel : ℕ) (qtc : ℚ) (q : List CRow) (lot : CRow),
      lot ∈ (processCloseF fr grp c cr fuel qtc q).2 → eps < lot.quantity ∨ lot ∈ q := by
  intro fuel
  induction fuel with
  | zero => intro qtc q lot h; exact Or.inr h
  | succ n ih =>
    intro qtc q lot h
    cases q with
    | nil => simp [processCloseF] at h
    | cons l rest =>
      by_cases hq : 0 < qtc
      · by_cases he : l.quantity - min qtc l.quantity ≤ eps
        · have h2 : lot ∈ (processCloseF fr grp c cr n (qtc - min qtc l.quantity) rest).2 := by
            simpa [processCloseF, hq, he] using h
          rcases ih _ _ _ h2 with h3 | h3
          · exact Or.inl h3
          · exact Or.inr (List.mem_cons_of_mem _ h3)
        · have h2 : lot ∈ (processCloseF fr grp c cr n (qtc - min qtc l.quantity)
              ({ l with quantity := l.quantity - min qtc l.quantity } :: rest)).2 := by
            simpa [processCloseF, hq, he] using h
          rcases ih _ _ _ h2 with h3 | h3
          · exact Or.inl h3
          · rcases List.mem_cons.mp h3 with h4 | h4
            · refine Or.inl ?_
              rw [h4]
              exact not_le.mp he
            · exact Or.inr (List.mem_cons_of_mem _ h4)
      · refine Or.inr ?_
        simpa [processCloseF, hq] using h

theorem spotSellLoop_queue_sub {coin : String} {sp t : ℚ} :
    ∀ (fuel : ℕ) (qts : ℚ) (q : List SpotLot) (lot : SpotLot),
      lot ∈ (spotSellLoop coin sp t fuel qts q).2 → eps < lot.qty ∨ lot ∈ q := by
  intro fuel
  induction fuel with
  | zero => intro qts q lot h; exact Or.inr h
  | succ n ih =>
    intro qts q lot h
    cases q with
    | nil => simp [spotSellLoop] at h
    | cons l rest =>
      by_cases hq : 0 < qts
      · by_cases he : l.qty - min qts l.qty ≤ eps
        · have h2 : lot ∈ (spotSellLoop coin sp t n (qts - min qts l.qty) rest).2 := by
            simpa [spotSellLoop, hq, he] using h
          rcases ih _ _ _ h2 with h3 | h3
          · exact Or.inl h3
          · exact Or.inr (List.mem_cons_of_mem _ h3)
        · have h2 : lot ∈ (spotSellLoop coin sp t n (qts - min qts l.qty)
              ({ l with qty := l.qty - min qts l.qty } :: rest)).2 := by
            simpa [spotSellLoop, hq, he] using h
          rcases ih _ _ _ h2 with h3 | h3
          · exact Or.inl h3
          · rcases List.mem_cons.mp h3 with h4 | h4
            · refine Or.inl ?_
              rw [h4]
              exact not_le.mp he
            · exact Or.inr (List.mem_cons_of_mem _ h4)
      · refine Or.inr ?_
        simpa [spotSellLoop, hq] using h

theorem processRow_fold_queue {fr g : List CRow} {c : String} :
    ∀ (rows : List CRow) (st : List CRow × List Fill),
      (∀ r ∈ rows, r ∈ g) →
      (∀ l ∈ st.1, eps < l.quantity ∨ l ∈ g) →
      ∀ l ∈ (rows.foldl (processRow fr g c) st).1, eps < l.quantity ∨ l ∈ g := by
  intro rows
  induction rows with
  | nil => intro st _ hst l hl; exact hst l hl
  | cons r rs ih =>
    intro st hsub hst l hl
    have hst2 : ∀ l2 ∈ (processRow fr g c st r).1, eps < l2.quantity ∨ l2 ∈ g := by
      intro l2 hl2
      by_cases h1 : r.action = "OPEN"
      · simp only [processRow, if_pos h1] at hl2
        rcases List.mem_append.mp hl2 with h3 | h3
        · exact hst l2 h3
        · have : l2 = r := by simpa using h3
          exact Or.inr (this ▸ hsub r (List.mem_cons_self r rs))
      · by_cases h2 : r.action = "CLOSE"
        · simp only [processRow, if_neg h1, if_pos h2] at hl2
          rcases processCloseF_queue_sub _ _ _ _ hl2 with h3 | h3
          · exact Or.inl h3
          · exact hst l2 h3
        · simp only [processRow, if_neg h1, if_neg h2] at hl2
          exact hst l2 hl2
    have hl2 : l ∈ (rs.foldl (processRow fr g c) (processRow fr g c st r)).1 := by
      simpa [List.foldl] using hl
    exact ih (processRow fr g c st r)
      (fun x hx => hsub x (List.mem_cons_of_mem _ hx)) hst2 l hl2

theorem processGroupFull_queue (fr : List CRow) (c : String) (grp : List CRow) :
    ∀ lot ∈ (processGroupFull fr c grp).1, eps < lot.quantity ∨ lot ∈ grp := by
  intro lot h
  have h2 : lot ∈ ((sortByTimeC grp).foldl
      (processRow fr (sortByTimeC grp) c) ([], [])).1 := by
    simpa [processGroupFull] using h
  rcases processRow_fold_queue (sortByTimeC grp) ([], [])
      (fun r hr => hr) (by intro l hl; simp at hl) lot h2 with h3 | h3
  · exact Or.inl h3
  · exact Or.inr (mem_sortByTimeC.mp h3)

/-- C5: in both engines, immediately after a match decrements a lot, the lot
is removed from its FIFO queue whenever its remaining quantity is at or below
`eps = 1e-9` (pop branches of `processCloseF` and `spotSellLoop`), so any lot
still present in a queue after matching either has remaining quantity
strictly above `eps` or is an untouched original member of the input queue
(for the whole contract group run: an original OPEN row). Hence a lot whose
remaining quantity was brought to or below `eps` by a match is gone from the
queue and is never matched again. -/
theorem c5_epsilon_exhaustion :
    (∀ (fr grp : List CRow) (c : String) (cr : CRow) (fuel : ℕ) (qtc : ℚ)
        (q : List CRow) (lot : CRow),
        lot ∈ (processCloseF fr grp c cr fuel qtc q).2 → eps < lot.quantity ∨ lot ∈ q) ∧
    (∀ (coin : String) (sp t : ℚ) (fuel : ℕ) (qts : ℚ) (q : List SpotLot)
        (lot : SpotLot),
        lot ∈ (spotSellLoop coin sp t fuel qts q).2 → eps < lot.qty ∨ lot ∈ q) ∧
    (∀ (fr : List CRow) (c : String) (grp : List CRow) (lot : CRow),
        lot ∈ (processGroupFull fr c grp).1 → eps < lot.quantity ∨ lot ∈ grp) :=
  ⟨fun _ _ _ _ fuel qtc q lot h => processCloseF_queue_sub fuel qtc q lot h,
   fun _ _ _ fuel qts q lot h => spotSellLoop_queue_sub fuel qts q lot h,
   fun fr c grp lot h => processGroupFull_queue fr c grp lot h⟩

/-- Witness for C5 at a concrete queue. -/
theorem c5_epsilon_exhaustion_witness :
    eps < c5lot.quantity ∨ c5lot ∈ [c5lot] :=
  c5_epsilon_exhaustion.1 [] [] "" baseC 1 0 [c5lot] c5lot (by decide)

theorem finalizeTrades_typ :
    ∀ (thS cp cf : ℚ) (rs : List AggRow) (t : AggTrade),
      t ∈ finalizeTrades thS cp cf rs →
      t.typ = classifyType thS t.holdingPeriodSeconds := by
  intro thS cp cf rs
  induction rs generalizing cp cf with
  | nil => intro t h; simp [finalizeTrades] at h
  | cons r rest ih =>
    intro t h
    rcases List.mem_cons.mp h with h2 | h2
    · rw [h2]
    · exact ih _ _ t h2

/-- C7: every aggregated contract trade is classified SWING exactly when its
(weighted) holding period in seconds strictly exceeds
`thresholdHours * 3600`; at exactly the threshold it is classified DAY_TRADE,
and one second above the threshold it is classified SWING. -/
theorem c7_classification_boundary :
    ∀ (rows : List CRow) (th : ℚ) (t : AggTrade),
      t ∈ contractAggTrades rows th →
      ((t.typ = .swing ↔ th * 3600 < t.holdingPeriodSeconds) ∧
       (t.holdingPeriodSeconds = th * 3600 → t.typ = .day) ∧
       (t.holdingPeriodSeconds = th * 3600 + 1 → t.typ = .swing)) := by
  intro rows th t h
  have htyp := finalizeTrades_typ (th * 3600) 0 0 _ t h
  refine ⟨?_, ?_, ?_⟩
  · constructor
    · intro hs
      by_contra hlt
      rw [classifyType, if_neg hlt] at htyp
      rw [htyp] at hs
      exact TradeType.noConfusion hs
    · intro hlt
      rw [classifyType, if_pos hlt] at htyp
      exact htyp
  · intro heq
    rw [classifyType, heq, if_neg (lt_irrefl (th * 3600))] at htyp
    exact htyp
  · intro heq
    rw [classifyType, heq, if_pos (lt_add_one (th * 3600))] at htyp
    exact htyp

/-- Witness for C7: the trade of `c7rows` held exactly 24 hours. -/
theorem c7_classification_boundary_witness :
    (c7trade.typ = .swing ↔ (24:ℚ) * 3600 < c7trade.holdingPeriodSeconds) ∧
    (c7trade.holdingPeriodSeconds = (24:ℚ) * 3600 → c7trade.typ = .day) ∧
    (c7trade.holdingPeriodSeconds = (24:ℚ) * 3600 + 1 → c7trade.typ = .swing) :=
  c7_classification_boundary c7rows 24 c7trade (by decide)

/-- C4: the open-fee allocation of the contract engine equals the specified
formula `lot.feePaid * (matchedQuantity / R)` with ratio 0 at `R = 0`, where
`R` is the lot quantity passed to the match — and the match step of the
engine passes the lot's live remaining quantity (the queue entry mutated by
earlier matches), never the lot's original opening quantity. -/
theorem c4_open_fee_live_ratio :
    (∀ fee m R : ℚ, 0 ≤ R → open_fee_part fee m R = openFeePart_claim fee m R) ∧
    (∀ (fr grp : List CRow) (c : String) (closeRow lot : CRow) (qtc : ℚ),
      (matchFill fr grp c closeRow lot qtc).tradeFees =
        open_fee_part lot.feePaid (min qtc lot.quantity) lot.quantity +
          close_fee_part closeRow.feePaid (min qtc lot.quantity) closeRow.quantity) := by
  constructor
  · intro fee m R h
    rcases lt_or_eq_of_le h with hR | hR
    · rw [open_fee_part, open_fee_ratio, if_pos hR, openFeePart_claim,
        if_neg (ne_of_gt hR)]
    · rw [open_fee_part, open_fee_ratio, ← hR, if_neg (lt_irrefl 0),
        openFeePart_claim, if_pos rfl, mul_zero]
  · intro fr grp c closeRow lot qtc
    rw [matchFill]

/-- Witness for C4 at concrete values. -/
theorem c4_open_fee_live_ratio_witness :
    open_fee_part 2 5 10 = openFeePart_claim 2 5 10 :=
  c4_open_fee_live_ratio.1 2 5 10 (by norm_num)

/-- C3 (code bug): on `c3rows` — a buy of 10 C priced by its USDT leg,
followed by a sell of 10 C priced by its USDT leg — the spot engine emits no
fill at all for the sell, leaves the 10-lot inventory of C untouched, pushes
the sell itself as a second 10-lot, and so returns the no-realized-PnL
error. Line 86 of src/app.py replaces sell amounts by absolute values
before line 106 tests `row['Amount'] > 0`, so every sell leg is treated as a
buy, contradicting the sell-matching loop of lines 115-142 and the comment
at line 105. -/
theorem c3_spot_sell_never_matches :
    spotFills c3rows = [] ∧
    ((spotRun c3rows).inv "C").map (·.qty) = [10, 10] ∧
    analyze_spot_trades c3rows = .error .noRealizedPnl :=
  ⟨by decide, by decide, rfl⟩

/-- C10: on `c10rows` — one lot of 10 with opening fee 2, fully consumed by
two CLOSEs of 5 with zero closing fees — the two fills carry open-fee parts
1 and 2 (the second match ratios the full original fee 2 against the
shrunken remaining quantity 5), so the total allocated open fee is 3 = 1.5
times the lot's original fee of 2, strictly exceeding it. -/
theorem c10_open_fee_not_conservative :
    ((contractFills c10rows).map (·.tradeFees)) = [1, 2] ∧
    ((contractFills c10rows).map (·.tradeFees)).sum = (3 : ℚ) ∧
    (3 : ℚ) = (3 / 2) * 2 ∧ (2 : ℚ) < 3 :=
  ⟨by decide, by decide, by norm_num, by norm_num⟩

theorem spotAllTrades_amount_pos {rows : List SRow} {r : SRow}
    (h : r ∈ spotAllTrades rows) : 0 < r.amount := by
  have h2 : r ∈ filterP (fun x => 0 < x.amount) (spotTradeRows rows) ++
      (filterP (fun x => x.amount < 0) (spotTradeRows rows)).map
        (fun x => { x with amount := |x.amount| }) := by
    simpa [spotAllTrades, mem_sortByTimeS] using h
  rcases List.mem_append.mp h2 with h3 | h3
  · exact (mem_filterP.mp h3).2
  · rcases List.mem_map.mp h3 with ⟨x, hx, hEq⟩
    have hneg := (mem_filterP.mp hx).2
    rw [← hEq]
    simpa using abs_pos.mpr (ne_of_lt hneg)

/-- C6: in the spot engine, a processed leg with no same-timestamp USDT TRADE
row is skipped entirely (the state, hence every queue and the fill list, is
unchanged), and a processed leg with such a quote row pushes a lot whose
implied unit price is `|USDT amount| / |coin amount|`. Both buy legs and sell
legs of the input are processed through this step with a positive amount
(sell amounts are replaced by their absolute value during merging). -/
theorem c6_implied_price :
    ∀ (rows : List SRow) (st : SpotState) (row : SRow),
      row ∈ spotAllTrades rows →
      ((usdtRowAt (spotTradeRows rows) row.time = none →
          spotStep (spotTradeRows rows) st row = st) ∧
       (∀ u, usdtRowAt (spotTradeRows rows) row.time = some u →
          (spotStep (spotTradeRows rows) st row).fills = st.fills ∧
          (spotStep (spotTradeRows rows) st row).inv row.coin =
            st.inv row.coin ++
              [{ qty := |row.amount|, price := |u.amount| / |row.amount|,
                 time := row.time }])) := by
  intro rows st row hmem
  have hpos := spotAllTrades_amount_pos hmem
  constructor
  · intro hnone
    rw [spotStep, if_pos hpos, hnone]
  · intro u hu
    constructor
    · rw [spotStep, if_pos hpos, hu]
    · rw [spotStep, if_pos hpos, hu]
      show (if row.coin = row.coin then _ else _) = _
      rw [if_pos rfl, abs_of_pos hpos]

/-- Witness for C6: the buy leg of `c6rows` is priced at `20 / 10`. -/
theorem c6_implied_price_witness :
    (spotStep (spotTradeRows c6rows) c6state c6row).fills = c6state.fills ∧
    (spotStep (spotTradeRows c6rows) c6state c6row).inv c6row.coin =
      c6state.inv c6row.coin ++
        [{ qty := |c6row.amount|, price := |c6usdt.amount| / |c6row.amount|,
           time := c6row.time }] :=
  (c6_implied_price c6rows c6state c6row (by decide)).2 c6usdt (by decide)

theorem foldl_dedup_ne_nil {α : Type} [DecidableEq α] :
    ∀ (ys acc : List α), acc ≠ [] →
      ys.foldl (fun acc x => if x ∈ acc then acc else acc ++ [x]) acc ≠ [] := by
  intro ys
  induction ys with
  | nil => intro acc h; exact h
  | cons y ys ih =>
    intro acc h
    simp only [List.foldl]
    apply ih
    by_cases hy : y ∈ acc
    · rw [if_pos hy]; exact h
    · rw [if_neg hy]
      intro hc
      exact absurd (List.append_eq_nil.mp hc).2 (by simp)

theorem dedupFirst_ne_nil {α : Type} [DecidableEq α] {l : List α} (h : l ≠ []) :
    dedupFirst l ≠ [] := by
  cases l with
  | nil => exact absurd rfl h
  | cons x xs =>
    have hstep : dedupFirst (x :: xs) =
        xs.foldl (fun acc x => if x ∈ acc then acc else acc ++ [x]) [x] := by
      simp [dedupFirst, List.foldl]
    rw [hstep]
    exact foldl_dedup_ne_nil xs [x] (by simp)

theorem contractAggTrades_ne_nil {rows : List CRow} {th : ℚ}
    (h : contractFills rows ≠ []) : contractAggTrades rows th ≠ [] := by
  have h1 : (contractFills rows).map (·.closeTime) ≠ [] := by
    simpa using h
  have h2 : closeTimeKeys (contractFills rows) ≠ [] := by
    rw [closeTimeKeys]
    intro hc
    apply dedupFirst_ne_nil h1
    have hl := congrArg List.length hc
    rw [length_sortQ] at hl
    exact List.length_eq_zero.mp hl
  rw [contractAggTrades]
  cases hagg : aggregateFills (contractFills rows) with
  | nil =>
    exfalso
    apply h2
    have hl := congrArg List.length hagg
    rw [aggregateFills, List.length_map] at hl
    exact List.length_eq_zero.mp hl
  | cons r rs => simp [finalizeTrades]

/-- C8 (counterexample): on the empty contract batch no fill is emitted, yet
the engine's error is the empty-data error of line 193, not the
no-classifiable-trades error of line 278. -/
theorem c8_counterexample :
    analyze_contract_trades [] 24 = .error .noContractData ∧
    AnalysisError.noContractData ≠ AnalysisError.noClassifiableTrades ∧
    contractFills [] = [] :=
  ⟨rfl, by decide, rfl⟩

/-- C8 (amended): the spot engine errors with the no-realized-PnL message
exactly when it emitted no fill; the contract engine, on a nonempty batch,
errors with the no-classifiable-trades message exactly when it emitted no
fill (the empty batch yields the distinct empty-data error instead); and a
successful result of either engine always carries at least one trade. -/
theorem c8_empty_result_errors :
    (∀ rows : List SRow,
       analyze_spot_trades rows = .error .noRealizedPnl ↔ spotFills rows = []) ∧
    (∀ (rows : List CRow) (th : ℚ), rows ≠ [] →
       (analyze_contract_trades rows th = .error .noClassifiableTrades ↔
         contractFills rows = [])) ∧
    (∀ (rows : List CRow) (th : ℚ) (res : ContractResult),
       analyze_contract_trades rows th = .ok res → res.trades ≠ []) ∧
    (∀ (rows : List SRow) (res : SpotResult),
       analyze_spot_trades rows = .ok res → res.trades ≠ []) := by
  refine ⟨?_, ?_, ?_, ?_⟩
  · intro rows
    by_cases h : spotFills rows = []
    · simp [analyze_spot_trades, h]
    · simp [analyze_spot_trades, h, List.isEmpty_iff]
  · intro rows th hne
    by_cases h : contractFills rows = []
    · simp [analyze_contract_trades, h, List.isEmpty_iff, hne]
    · simp [analyze_contract_trades, h, List.isEmpty_iff, hne]
  · intro rows th res hok
    by_cases he : rows = []
    · rw [analyze_contract_trades, he] at hok
      simp at hok
    · by_cases h : contractFills rows = []
      · rw [analyze_contract_trades] at hok
        simp [List.isEmpty_iff, he, h] at hok
      · rw [analyze_contract_trades] at hok
        simp only [List.isEmpty_iff, he, h, if_neg, if_false] at hok
        have := Except.ok.inj hok
        rw [← this]
        exact contractAggTrades_ne_nil h
  · intro rows res hok
    by_cases h : spotFills rows = []
    · rw [analyze_spot_trades] at hok
      simp [List.isEmpty_iff, h] at hok
    · rw [analyze_spot_trades] at hok
      simp only [List.isEmpty_iff, h, if_neg, if_false] at hok
      have := Except.ok.inj hok
      rw [← this]
      exact h

/-- Witness for C8 at a one-row batch that yields no fill. -/
theorem c8_empty_result_errors_witness :
    analyze_contract_trades [c8row] 24 = .error .noClassifiableTrades ↔
      contractFills [c8row] = [] :=
  c8_empty_result_errors.2.1 [c8row] 24 (by decide)

theorem filter_isSome_ne_nil {files : List UFile}
    (h : files.filterMap classifyFile ≠ []) :
    files.filter (fun f => (classifyFile f).isSome) ≠ [] := by
  induction files with
  | nil => simp at h
  | cons f fs ih =>
    cases hc : classifyFile f with
    | some t => simp [List.filter_cons, hc]
    | none =>
      have h2 : fs.filterMap classifyFile ≠ [] := by
        simpa [List.filterMap_cons, hc] using h
      simpa [List.filter_cons, hc] using ih h2

/-- C9 (counterexample): a batch made of one spot-signature file and one
contract-signature file, each carrying zero data rows, yields two distinct
classification tags yet fails with the empty-data error of line 380, not the
mixed-files error of line 383. -/
theorem c9_counterexample :
    analyzeUploadedFiles [c9f1, c9f2] 24 = .error .noValidData ∧
    AnalysisError.noValidData ≠ AnalysisError.mixedFiles ∧
    1 < (pipelineTags [c9f1, c9f2]).length :=
  ⟨rfl, by decide, by decide⟩

/-- C9 (amended): every uploaded batch whose files yield more than one
distinct classification tag and whose classified files carry at least one
data row fails with the mixed-files error before any engine runs, so no
aggregated trades are produced. -/
theorem c9_mixed_batch_rejection :
    ∀ (files : List UFile) (th : ℚ),
      1 < (pipelineTags files).length →
      pipelineRows files ≠ [] →
      analyzeUploadedFiles files th = .error .mixedFiles := by
  intro files th htags hrows
  have hfm : files.filterMap classifyFile ≠ [] := by
    intro hc
    rw [pipelineTags, hc] at htags
    simp [dedupFirst] at htags
  have hcl : (files.filter (fun f => (classifyFile f).isSome)) ≠ [] :=
    filter_isSome_ne_nil hfm
  rw [analyzeUploadedFiles]
  rw [if_neg (by simp [List.isEmpty_iff, hcl]),
      if_neg (by simp [List.isEmpty_iff, hrows]),
      if_pos htags]

/-- Witness for C9 on a concrete mixed batch with a data row. -/
theorem c9_mixed_batch_rejection_witness :
    analyzeUploadedFiles [c9g1, c9g2] 24 = .error .mixedFiles :=
  c9_mixed_batch_rejection [c9g1, c9g2] 24 (by decide) (by decide)

/-- C1 (counterexample): on `c1rows`, contracts "A" and "B" each produce one
fill and both fills close at timestamp 2; the aggregator merges them into a
single aggregated trade of quantity 2 whose contract label is the first
member's "A" — one AggregatedTrade combines fills of two different
contracts. -/
theorem c1_counterexample :
    ((contractFills c1rows).map (·.contract)) = ["A", "B"] ∧
    ((contractFills c1rows).map (·.closeTime)) = [2, 2] ∧
    (aggregateFills (contractFills c1rows)).length = 1 ∧
    ((aggregateFills (contractFills c1rows)).map (·.quantity)) = [2] ∧
    ((aggregateFills (contractFills c1rows)).map (·.contract)) = ["A"] :=
  ⟨by decide, by decide, by decide, by decide, by decide⟩

/-- C1 (amended): fills are merged into one AggregatedTrade exactly when they
share the same close timestamp, with no regard to contract: there is one
aggregate per distinct close timestamp, and each aggregate sums
pnl/fees/funding/quantity over all fills with its close timestamp — possibly
from several contracts — taking its contract label from the first such
fill. -/
theorem c1_aggregation_by_close_time :
    (∀ fills : List Fill,
       (aggregateFills fills).length =
         (dedupFirst (fills.map (·.closeTime))).length) ∧
    (∀ (fills : List Fill) (a : AggRow), a ∈ aggregateFills fills →
       a.pnl = ((filterP (fun f => f.closeTime = a.closeTime) fills).map (·.pnl)).sum ∧
       a.quantity =
         ((filterP (fun f => f.closeTime = a.closeTime) fills).map (·.quantity)).sum ∧
       a.tradeFees =
         ((filterP (fun f => f.closeTime = a.closeTime) fills).map (·.tradeFees)).sum ∧
       a.fundingFee =
         ((filterP (fun f => f.closeTime = a.closeTime) fills).map (·.fundingFee)).sum ∧
       a.contract =
         (((filterP (fun f => f.closeTime = a.closeTime) fills).head?).map
           (·.contract)).getD "") := by
  constructor
  · intro fills
    rw [aggregateFills, List.length_map, closeTimeKeys, length_sortQ]
  · intro fills a ha
    rw [aggregateFills] at ha
    rcases List.mem_map.mp ha with ⟨t, ht, hEq⟩
    subst hEq
    exact ⟨rfl, rfl, rfl, rfl, rfl⟩

/-- Witness for C1 at a one-fill list. -/
theorem c1_aggregation_by_close_time_witness :
    (aggRowAt [c1fill] 5).pnl =
      ((filterP (fun f => f.closeTime = (aggRowAt [c1fill] 5).closeTime)
        [c1fill]).map (·.pnl)).sum ∧
    (aggRowAt [c1fill] 5).quantity =
      ((filterP (fun f => f.closeTime = (aggRowAt [c1fill] 5).closeTime)
        [c1fill]).map (·.quantity)).sum ∧
    (aggRowAt [c1fill] 5).tradeFees =
      ((filterP (fun f => f.closeTime = (aggRowAt [c1fill] 5).closeTime)
        [c1fill]).map (·.tradeFees)).sum ∧
    (aggRowAt [c1fill] 5).fundingFee =
      ((filterP (fun f => f.closeTime = (aggRowAt [c1fill] 5).closeTime)
        [c1fill]).map (·.fundingFee)).sum ∧
    (aggRowAt [c1fill] 5).contract =
      (((filterP (fun f => f.closeTime = (aggRowAt [c1fill] 5).closeTime)
        [c1fill]).head?).map (·.contract)).getD "" :=
  c1_aggregation_by_close_time.2 [c1fill] (aggRowAt [c1fill] 5) (by decide)

/-- C2 (counterexample): on `c2rows` — a single lot of 10 fully consumed by
two CLOSEs of 5, with one settlement of -4 strictly between the two closes
(so exactly one open lot is active at settlement time) — only -2 of the -4
of funding is allocated across the lot's fills: the first fill's window
(0,10] misses the settlement at 15 and the second fill receives
-4 * (5/10) = -2. -/
theorem c2_counterexample :
    ((contractFills c2rows).map (·.fundingFee)) = [0, -2] ∧
    ((contractFills c2rows).map (·.fundingFee)).sum = (-2 : ℚ) ∧
    ((-2 : ℚ) ≠ -4) ∧
    ((contractFills c2rows).map (·.quantity)).sum = (10 : ℚ) :=
  ⟨by decide, by decide, by norm_num, by decide⟩

/-- C2 (amended): when the single open lot is consumed by a single CLOSE and
the settlement falls strictly between the open time and the close time, the
whole settlement amount is allocated to the single resulting fill: for
OPEN `q` at `t0`, SETTLEMENT `F` at `ts ∈ (t0, tc)`, CLOSE `q` at `tc`
with `q > 0`, the one fill carries `fundingPart = F`; in particular the
OPEN 10 / SETTLEMENT -4 / CLOSE 10 scenario allocates exactly -4. -/
theorem c2_funding_single_close (X : String) (t0 ts tc q F fo cf fc : ℚ)
    (hq : 0 < q) (h1 : t0 < ts) (h2 : ts < tc) :
    ((contractFills [c2open X t0 q fo, c2settle X ts F, c2close X tc q cf fc]).map
      (·.fundingFee)) = [F] := by
  have hta : contractTradeActions
      [c2open X t0 q fo, c2settle X ts F, c2close X tc q cf fc] =
      [c2open X t0 q fo, c2close X tc q cf fc] := rfl
  have hkeys : contractKeys
      [c2open X t0 q fo, c2settle X ts F, c2close X tc q cf fc] = [X] := by
    show sortStr (dedupFirst [X, X]) = [X]
    have hd : dedupFirst [X, X] = [X] := by
      show List.foldl _ [] [X, X] = [X]
      simp only [List.foldl]
      rw [if_neg (List.not_mem_nil X), List.nil_append,
        if_pos (List.mem_cons_self X [])]
    rw [hd]
    rfl
  have hfc : filterP (fun r : CRow => r.contract = X)
      [c2open X t0 q fo, c2close X tc q cf fc] =
      [c2open X t0 q fo, c2close X tc q cf fc] := by
    rw [filterP_cons,
      if_pos (show (c2open X t0 q fo).contract = X from rfl), filterP_cons,
      if_pos (show (c2close X tc q cf fc).contract = X from rfl), filterP_nil]
  have hsort : sortByTimeC [c2open X t0 q fo, c2close X tc q cf fc] =
      [c2open X t0 q fo, c2close X tc q cf fc] := by
    show (if (c2close X tc q cf fc).time ≤ (c2open X t0 q fo).time
      then _ else _) = _
    rw [if_neg (show ¬ (c2close X tc q cf fc).time ≤ (c2open X t0 q fo).time
      from not_le.mpr (lt_trans h1 h2))]
  have hclose : processCloseF [c2settle X ts F]
      [c2open X t0 q fo, c2close X tc q cf fc] X (c2close X tc q cf fc) 2 q
      [c2open X t0 q fo] =
      ([matchFill [c2settle X ts F] [c2open X t0 q fo, c2close X tc q cf fc] X
          (c2close X tc q cf fc) (c2open X t0 q fo) q], []) := by
    have heps : (c2open X t0 q fo).quantity -
        min q (c2open X t0 q fo).quantity ≤ eps := by
      show q - min q q ≤ eps
      rw [min_self, sub_self]
      norm_num [eps]
    simp only [processCloseF, if_pos hq, if_pos heps]
  have hstep1 : processRow [c2settle X ts F]
      [c2open X t0 q fo, c2close X tc q cf fc] X ([], []) (c2open X t0 q fo) =
      ([c2open X t0 q fo], []) := by
    rw [processRow, if_pos (show (c2open X t0 q fo).action = "OPEN" from rfl)]
    rfl
  have hstep2 : processRow [c2settle X ts F]
      [c2open X t0 q fo, c2close X tc q cf fc] X ([c2open X t0 q fo], [])
      (c2close X tc q cf fc) =
      ([], [matchFill [c2settle X ts F]
        [c2open X t0 q fo, c2close X tc q cf fc] X (c2close X tc q cf fc)
        (c2open X t0 q fo) q]) := by
    rw [processRow,
      if_neg (show ¬ (c2close X tc q cf fc).action = "OPEN" from
        (by decide : ¬ ("CLOSE" : String) = "OPEN")),
      if_pos (show (c2close X tc q cf fc).action = "CLOSE" from rfl)]
    show ((processCloseF [c2settle X ts F]
        [c2open X t0 q fo, c2close X tc q cf fc] X (c2close X tc q cf fc) 2 q
        [c2open X t0 q fo]).2,
      [] ++ (processCloseF [c2settle X ts F]
        [c2open X t0 q fo, c2close X tc q cf fc] X (c2close X tc q cf fc) 2 q
        [c2open X t0 q fo]).1) = _
    rw [hclose]
    rfl
  have hfe : (matchFill [c2settle X ts F]
      [c2open X t0 q fo, c2close X tc q cf fc] X (c2close X tc q cf fc)
      (c2open X t0 q fo) q).fundingFee = F := by
    show fundingPart [c2settle X ts F] [c2open X t0 q fo, c2close X tc q cf fc]
      X t0 tc (min q q) = F
    have hfs : fundingSum [c2settle X ts F] X t0 tc = F := by
      rw [fundingSum, filterP_cons,
        if_pos (show (c2settle X ts F).contract = X ∧ t0 < (c2settle X ts F).time ∧
          (c2settle X ts F).time ≤ tc from ⟨rfl, h1, le_of_lt h2⟩), filterP_nil]
      simp [c2settle]
    have htoq : totalOpenQtyInPeriod
        [c2open X t0 q fo, c2close X tc q cf fc] t0 tc = q := by
      rw [totalOpenQtyInPeriod, filterP_cons,
        if_pos (show (c2open X t0 q fo).action = "OPEN" ∧
          t0 ≤ (c2open X t0 q fo).time ∧ (c2open X t0 q fo).time ≤ tc from
          ⟨rfl, le_refl t0, le_of_lt (lt_trans h1 h2)⟩), filterP_cons,
        if_neg (show ¬ ((c2close X tc q cf fc).action = "OPEN" ∧
          t0 ≤ (c2close X tc q cf fc).time ∧ (c2close X tc q cf fc).time ≤ tc)
          from fun hc => absurd hc.1
            (show ¬ (c2close X tc q cf fc).action = "OPEN" from
              (by decide : ¬ ("CLOSE" : String) = "OPEN"))), filterP_nil]
      simp [c2open]
    rw [min_self, fundingPart]
    simp only [hfs, htoq]
    rw [if_pos hq, div_self (ne_of_gt hq), mul_one]
  have hfills : contractFills
      [c2open X t0 q fo, c2settle X ts F, c2close X tc q cf fc] =
      [matchFill [c2settle X ts F] [c2open X t0 q fo, c2close X tc q cf fc] X
        (c2close X tc q cf fc) (c2open X t0 q fo) q] := by
    rw [contractFills]
    rw [hkeys]
    show [] ++ (processGroupFull
        (contractFundingRows
          [c2open X t0 q fo, c2settle X ts F, c2close X tc q cf fc]) X
        (filterP (fun r => r.contract = X)
          (contractTradeActions
            [c2open X t0 q fo, c2settle X ts F, c2close X tc q cf fc]))).2 = _
    rw [hta]
    show (processGroupFull [c2settle X ts F] X
        (filterP (fun r => r.contract = X)
          [c2open X t0 q fo, c2close X tc q cf fc])).2 = _
    rw [hfc, processGroupFull]
    rw [hsort]
    show (List.foldl
        (processRow [c2settle X ts F] [c2open X t0 q fo, c2close X tc q cf fc] X)
        ([], []) [c2open X t0 q fo, c2close X tc q cf fc]).2 = _
    simp only [List.foldl]
    rw [hstep1, hstep2]
  rw [hfills]
  simp [hfe]

/-- Witness for C2 at the spec's concrete scenario. -/
theorem c2_funding_single_close_witness :
    ((contractFills [c2open "X" 0 10 0, c2settle "X" 1 (-4), c2close "X" 2 10 0 0]).map
      (·.fundingFee)) = [-4] :=
  c2_funding_single_close "X" 0 1 2 10 (-4) 0 0 0 (by norm_num) (by norm_num)
    (by norm_num)
